import Mathlib

/-
Verification of the matilda time-control and orchestration layer
(src/time_ctrl.c and the engine glue) against its specification.

The C code works on 32-bit unsigned integers; we embed them as `Nat`
with explicit wrap-around (modulo 2^32) at the decrement operations,
which are the only operations in this code that can underflow.
-/

namespace Matilda

/-- Number of values of the C `u32` type; `u32` arithmetic wraps modulo this. -/
def U32 : Nat := 4294967296

/-- Decrement of a `u32` value (the C `x--`), wrapping at zero exactly as C
unsigned arithmetic does. -/
def u32dec (x : Nat) : Nat := (x + (U32 - 1)) % U32

/-- The `time_system` structure (declared in time_ctrl.h, used throughout
time_ctrl.c): configured and remaining budgets of one side's clock. -/
structure time_system where
  main_time : Nat
  main_time_remaining : Nat
  byo_yomi_time : Nat
  byo_yomi_time_remaining : Nat
  byo_yomi_stones : Nat
  byo_yomi_stones_remaining : Nat
  byo_yomi_periods : Nat
  byo_yomi_periods_remaining : Nat
  can_timeout : Bool
  timed_out : Bool
deriving Repr, DecidableEq

/-- set_time_system (time_ctrl.c): the complete Canadian byo-yomi preset;
overwrites every field, every remaining budget becomes its configured value. -/
def set_time_system (main_time byo_yomi_time byo_yomi_stones byo_yomi_periods : Nat) :
    time_system :=
  { main_time := main_time, main_time_remaining := main_time,
    byo_yomi_time := byo_yomi_time, byo_yomi_time_remaining := byo_yomi_time,
    byo_yomi_stones := byo_yomi_stones, byo_yomi_stones_remaining := byo_yomi_stones,
    byo_yomi_periods := byo_yomi_periods, byo_yomi_periods_remaining := byo_yomi_periods,
    can_timeout := true, timed_out := false }

/-- set_sudden_death (time_ctrl.c): absolute time only, byo-yomi fields zero. -/
def set_sudden_death (main_time : Nat) : time_system :=
  { main_time := main_time, main_time_remaining := main_time,
    byo_yomi_time := 0, byo_yomi_time_remaining := 0,
    byo_yomi_stones := 0, byo_yomi_stones_remaining := 0,
    byo_yomi_periods := 0, byo_yomi_periods_remaining := 0,
    can_timeout := true, timed_out := false }

/-- set_time_per_turn (time_ctrl.c): constant time per turn; cannot time out. -/
def set_time_per_turn (time_per_turn : Nat) : time_system :=
  { main_time := 0, main_time_remaining := 0,
    byo_yomi_time := time_per_turn, byo_yomi_time_remaining := time_per_turn,
    byo_yomi_stones := 1, byo_yomi_stones_remaining := 1,
    byo_yomi_periods := 1, byo_yomi_periods_remaining := 1,
    can_timeout := false, timed_out := false }

/-- The `while(milliseconds > 0)` loop of advance_clock (time_ctrl.c),
with an explicit fuel argument bounding the number of iterations (the C
loop always terminates, see `advance_clock`; with sufficient fuel the
fuel case never fires). The boolean argument is the local variable
`consumed_byo_yomi_stone` of the C function. -/
def advance_loop : Nat → Nat → time_system → Bool → time_system
  | 0, _, ts, _ => ts
  | fuel + 1, milliseconds, ts, consumed_byo_yomi_stone =>
    if milliseconds = 0 then ts
    else if ts.main_time_remaining = 0 then
      let byo_time_elapsed := min ts.byo_yomi_time_remaining milliseconds
      let ts1 := { ts with byo_yomi_time_remaining := ts.byo_yomi_time_remaining - byo_time_elapsed }
      let ms1 := milliseconds - byo_time_elapsed
      let ts2 := if consumed_byo_yomi_stone then ts1
        else { ts1 with byo_yomi_stones_remaining := u32dec ts1.byo_yomi_stones_remaining }
      if ts2.byo_yomi_time_remaining = 0 then
        let ts3 := { ts2 with byo_yomi_periods_remaining := u32dec ts2.byo_yomi_periods_remaining }
        if ts3.byo_yomi_periods_remaining = 0 then { ts3 with timed_out := true }
        else advance_loop fuel ms1
          { ts3 with byo_yomi_stones_remaining := ts3.byo_yomi_stones,
                     byo_yomi_time_remaining := ts3.byo_yomi_time } true
      else
        if ts2.byo_yomi_stones_remaining = 0 then
          advance_loop fuel ms1
            { ts2 with byo_yomi_stones_remaining := ts2.byo_yomi_stones,
                       byo_yomi_time_remaining := ts2.byo_yomi_time } true
        else advance_loop fuel ms1 ts2 true
    else
      let main_time_elapsed := min ts.main_time_remaining milliseconds
      advance_loop fuel (milliseconds - main_time_elapsed)
        { ts with main_time_remaining := ts.main_time_remaining - main_time_elapsed }
        consumed_byo_yomi_stone

/-- advance_clock (time_ctrl.c). The C while-loop always terminates: every
iteration either consumes at least one millisecond (at most `milliseconds`
such iterations) or decrements `byo_yomi_periods_remaining`, which takes
at most `U32` wrapping decrements to reach 0 and trigger the timeout
return; hence `2 * milliseconds + U32 + 4` iterations always suffice and
the fuel never runs out. -/
def advance_clock (ts : time_system) (milliseconds : Nat) : time_system :=
  if ts.can_timeout = false ∨ ts.timed_out = true then ts
  else advance_loop (2 * milliseconds + U32 + 4) milliseconds ts false

/-- The loop of advance_clock, instrumented to also count how many times the
statement `ts->byo_yomi_stones_remaining--` runs (the byo-yomi stone charges).
Identical to `advance_loop` otherwise; see `advance_loop_charges_fst`. -/
def advance_loop_charges : Nat → Nat → time_system → Bool → time_system × Nat
  | 0, _, ts, _ => (ts, 0)
  | fuel + 1, milliseconds, ts, consumed_byo_yomi_stone =>
    if milliseconds = 0 then (ts, 0)
    else if ts.main_time_remaining = 0 then
      let byo_time_elapsed := min ts.byo_yomi_time_remaining milliseconds
      let ts1 := { ts with byo_yomi_time_remaining := ts.byo_yomi_time_remaining - byo_time_elapsed }
      let ms1 := milliseconds - byo_time_elapsed
      let charged : Nat := if consumed_byo_yomi_stone then 0 else 1
      let ts2 := if consumed_byo_yomi_stone then ts1
        else { ts1 with byo_yomi_stones_remaining := u32dec ts1.byo_yomi_stones_remaining }
      if ts2.byo_yomi_time_remaining = 0 then
        let ts3 := { ts2 with byo_yomi_periods_remaining := u32dec ts2.byo_yomi_periods_remaining }
        if ts3.byo_yomi_periods_remaining = 0 then ({ ts3 with timed_out := true }, charged)
        else
          let r := advance_loop_charges fuel ms1
            { ts3 with byo_yomi_stones_remaining := ts3.byo_yomi_stones,
                       byo_yomi_time_remaining := ts3.byo_yomi_time } true
          (r.1, r.2 + charged)
      else
        if ts2.byo_yomi_stones_remaining = 0 then
          let r := advance_loop_charges fuel ms1
            { ts2 with byo_yomi_stones_remaining := ts2.byo_yomi_stones,
                       byo_yomi_time_remaining := ts2.byo_yomi_time } true
          (r.1, r.2 + charged)
        else
          let r := advance_loop_charges fuel ms1 ts2 true
          (r.1, r.2 + charged)
    else
      let main_time_elapsed := min ts.main_time_remaining milliseconds
      advance_loop_charges fuel (milliseconds - main_time_elapsed)
        { ts with main_time_remaining := ts.main_time_remaining - main_time_elapsed }
        consumed_byo_yomi_stone

/-- advance_clock, instrumented with the byo-yomi stone charge count. -/
def advance_clock_charges (ts : time_system) (milliseconds : Nat) : time_system × Nat :=
  if ts.can_timeout = false ∨ ts.timed_out = true then (ts, 0)
  else advance_loop_charges (2 * milliseconds + U32 + 4) milliseconds ts false

/-- Every remaining budget lies within `[0, its configured counterpart]`
(the lower bound is inherent to `Nat`). -/
def withinBounds (ts : time_system) : Prop :=
  ts.main_time_remaining ≤ ts.main_time ∧
  ts.byo_yomi_time_remaining ≤ ts.byo_yomi_time ∧
  ts.byo_yomi_stones_remaining ≤ ts.byo_yomi_stones ∧
  ts.byo_yomi_periods_remaining ≤ ts.byo_yomi_periods

instance (ts : time_system) : Decidable (withinBounds ts) := by
  unfold withinBounds
  infer_instance

/-- Invariant maintained by `advance_clock` for byo-yomi configurations whose
configured stone and period counts are positive `u32` values. -/
def LInv (ts : time_system) : Prop :=
  withinBounds ts ∧
  1 ≤ ts.byo_yomi_stones ∧ ts.byo_yomi_stones < U32 ∧
  1 ≤ ts.byo_yomi_periods ∧ ts.byo_yomi_periods < U32 ∧
  (ts.timed_out = false → 1 ≤ ts.byo_yomi_stones_remaining ∧ 1 ≤ ts.byo_yomi_periods_remaining)

lemma u32dec_eq_sub_one {x : Nat} (h1 : 1 ≤ x) (h2 : x < U32) : u32dec x = x - 1 := by
  unfold u32dec U32 at *
  omega

lemma u32dec_zero : u32dec 0 = U32 - 1 := by
  unfold u32dec U32
  norm_num

lemma advance_loop_zero_ms (fuel : Nat) (ts : time_system) (c : Bool) :
    advance_loop fuel 0 ts c = ts := by
  cases fuel with
  | zero => rfl
  | succ f => rw [advance_loop]; simp

/-- One pass of the C loop preserves `LInv`, whatever the fuel. -/
lemma advance_loop_LInv : ∀ (fuel ms : Nat) (ts : time_system) (c : Bool),
    LInv ts → ts.timed_out = false → LInv (advance_loop fuel ms ts c) := by
  intro fuel
  induction fuel with
  | zero => intro ms ts c h _; simpa [advance_loop] using h
  | succ f ih =>
    intro ms ts c h htimed
    obtain ⟨⟨hb1, hb2, hb3, hb4⟩, hs1, hs2, hp1, hp2, hrem⟩ := h
    obtain ⟨hsr, hpr⟩ := hrem htimed
    have hsU : ts.byo_yomi_stones_remaining < U32 := lt_of_le_of_lt hb3 hs2
    have hpU : ts.byo_yomi_periods_remaining < U32 := lt_of_le_of_lt hb4 hp2
    rw [advance_loop]
    by_cases hms : ms = 0
    · rw [if_pos hms]
      exact ⟨⟨hb1, hb2, hb3, hb4⟩, hs1, hs2, hp1, hp2, fun _ => ⟨hsr, hpr⟩⟩
    rw [if_neg hms]
    by_cases hmain : ts.main_time_remaining = 0
    · rw [if_pos hmain]
      cases c with
      | true =>
        simp only [if_true]
        rw [u32dec_eq_sub_one hpr hpU]
        split
        next htr =>
          split
          next hper =>
            unfold LInv withinBounds
            dsimp only
            exact ⟨⟨hb1, by omega, hb3, by omega⟩, hs1, hs2, hp1, hp2, by simp⟩
          next hper =>
            apply ih
            · unfold LInv withinBounds
              dsimp only
              exact ⟨⟨hb1, le_refl _, le_refl _, by omega⟩, hs1, hs2, hp1, hp2,
                fun _ => ⟨hs1, by omega⟩⟩
            · dsimp only
              exact htimed
        next htr =>
          split
          next hst =>
            apply ih
            · unfold LInv withinBounds
              dsimp only
              exact ⟨⟨hb1, le_refl _, le_refl _, hb4⟩, hs1, hs2, hp1, hp2,
                fun _ => ⟨hs1, hpr⟩⟩
            · dsimp only
              exact htimed
          next hst =>
            apply ih
            · unfold LInv withinBounds
              dsimp only
              exact ⟨⟨hb1, by omega, hb3, hb4⟩, hs1, hs2, hp1, hp2,
                fun _ => ⟨by omega, hpr⟩⟩
            · dsimp only
              exact htimed
      | false =>
        simp only [Bool.false_eq_true, if_false]
        rw [u32dec_eq_sub_one hsr hsU, u32dec_eq_sub_one hpr hpU]
        split
        next htr =>
          split
          next hper =>
            unfold LInv withinBounds
            dsimp only
            exact ⟨⟨hb1, by omega, by omega, by omega⟩, hs1, hs2, hp1, hp2, by simp⟩
          next hper =>
            apply ih
            · unfold LInv withinBounds
              dsimp only
              exact ⟨⟨hb1, le_refl _, le_refl _, by omega⟩, hs1, hs2, hp1, hp2,
                fun _ => ⟨hs1, by omega⟩⟩
            · dsimp only
              exact htimed
        next htr =>
          split
          next hst =>
            apply ih
            · unfold LInv withinBounds
              dsimp only
              exact ⟨⟨hb1, le_refl _, le_refl _, hb4⟩, hs1, hs2, hp1, hp2,
                fun _ => ⟨hs1, hpr⟩⟩
            · dsimp only
              exact htimed
          next hst =>
            apply ih
            · unfold LInv withinBounds
              dsimp only
              exact ⟨⟨hb1, by omega, by omega, hb4⟩, hs1, hs2, hp1, hp2,
                fun _ => ⟨by omega, hpr⟩⟩
            · dsimp only
              exact htimed
    · rw [if_neg hmain]
      apply ih
      · unfold LInv withinBounds
        dsimp only
        exact ⟨⟨by omega, hb2, hb3, hb4⟩, hs1, hs2, hp1, hp2, fun _ => ⟨hsr, hpr⟩⟩
      · dsimp only
        exact htimed

lemma advance_clock_LInv (ts : time_system) (ms : Nat) (h : LInv ts) :
    LInv (advance_clock ts ms) := by
  unfold advance_clock
  by_cases hg : ts.can_timeout = false ∨ ts.timed_out = true
  · simp only [hg, if_true]; exact h
  · simp only [hg, if_false]
    push_neg at hg
    exact advance_loop_LInv _ _ _ _ h (by simpa using hg.2)

/-- Clock state reachable by a sudden-death configuration once its main time is
exhausted and the loop is consuming (empty) overtime: all byo-yomi budgets zero
except the wrapped period counter. -/
def hstate (M p : Nat) : time_system :=
  { main_time := M, main_time_remaining := 0,
    byo_yomi_time := 0, byo_yomi_time_remaining := 0,
    byo_yomi_stones := 0, byo_yomi_stones_remaining := 0,
    byo_yomi_periods := 0, byo_yomi_periods_remaining := p,
    can_timeout := true, timed_out := false }

/-- Sudden-death state with `r` milliseconds of main time left. -/
def sdstate (M r : Nat) : time_system :=
  { main_time := M, main_time_remaining := r,
    byo_yomi_time := 0, byo_yomi_time_remaining := 0,
    byo_yomi_stones := 0, byo_yomi_stones_remaining := 0,
    byo_yomi_periods := 0, byo_yomi_periods_remaining := 0,
    can_timeout := true, timed_out := false }

/-- The timed-out terminal state of a sudden-death clock. -/
def sdtimed (M : Nat) : time_system :=
  { main_time := M, main_time_remaining := 0,
    byo_yomi_time := 0, byo_yomi_time_remaining := 0,
    byo_yomi_stones := 0, byo_yomi_stones_remaining := 0,
    byo_yomi_periods := 0, byo_yomi_periods_remaining := 0,
    can_timeout := true, timed_out := true }

/-- On an exhausted sudden-death clock the C loop decrements the wrapped period
counter once per iteration until it reaches 0 and the timeout return fires. -/
lemma advance_loop_hstate : ∀ (fuel p ms M : Nat), 1 ≤ p → p < U32 → 1 ≤ ms →
    advance_loop fuel ms (hstate M p) true =
      if p ≤ fuel then sdtimed M else hstate M (p - fuel) := by
  intro fuel
  induction fuel with
  | zero =>
    intro p ms M hp _ _
    rw [advance_loop, if_neg (show ¬p ≤ 0 by omega), Nat.sub_zero]
  | succ f ih =>
    intro p ms M hp hpU hms
    rw [advance_loop]
    rw [if_neg (show ¬ms = 0 by omega)]
    rw [if_pos (show (hstate M p).main_time_remaining = 0 from rfl)]
    simp only [hstate, if_true]
    rw [if_pos (show (0:Nat) - 0 ⊓ ms = 0 by omega)]
    rw [u32dec_eq_sub_one hp hpU]
    by_cases hper : p - 1 = 0
    · rw [if_pos hper, if_pos (show p ≤ f + 1 by omega)]
      simp [sdtimed, hper]
    · rw [if_neg hper]
      have step := ih (p - 1) ms M (by omega) (by omega) hms
      unfold hstate at step
      have hms1 : ms - (0:Nat) ⊓ ms = ms := by omega
      rw [hms1, step]
      by_cases hpf : p ≤ f + 1
      · rw [if_pos (show p - 1 ≤ f by omega), if_pos hpf]
      · rw [if_neg (show ¬p - 1 ≤ f by omega), if_neg hpf]
        have h2 : p - 1 - f = p - (f + 1) := by omega
        rw [h2]

/-- A sudden-death clock whose main time is exhausted: the loop runs the full
`U32`-iteration wrap of the period counter and ends in the timed-out state. -/
lemma advance_loop_sd_exhausted (fuel ms M : Nat) (hms : 1 ≤ ms) (hfuel : U32 ≤ fuel) :
    advance_loop fuel ms (sdstate M 0) false = sdtimed M := by
  obtain ⟨f, rfl⟩ : ∃ f, fuel = f + 1 := ⟨fuel - 1, by unfold U32 at hfuel; omega⟩
  rw [advance_loop]
  rw [if_neg (show ¬ms = 0 by omega)]
  rw [if_pos (show (sdstate M 0).main_time_remaining = 0 from rfl)]
  simp only [sdstate, Bool.false_eq_true, if_false]
  rw [if_pos (show (0:Nat) - 0 ⊓ ms = 0 by omega)]
  rw [u32dec_zero]
  rw [if_neg (show ¬U32 - 1 = 0 from by unfold U32; omega)]
  have hms1 : ms - (0:Nat) ⊓ ms = ms := by omega
  rw [hms1]
  have step := advance_loop_hstate f (U32 - 1) ms M (by unfold U32; omega)
    (by unfold U32; omega) hms
  unfold hstate at step
  rw [step]
  rw [if_pos (show U32 - 1 ≤ f by unfold U32 at hfuel ⊢; omega)]

/-- Entering the loop on a sudden-death clock: the main time is consumed and, if
any elapsed time is left over, the wrapped overtime loop runs to the timeout. -/
lemma advance_loop_sdstate (fuel ms r M : Nat) (hfuel : U32 + 2 ≤ fuel) :
    advance_loop fuel ms (sdstate M r) false =
      if ms ≤ r then sdstate M (r - ms) else sdtimed M := by
  by_cases hms : ms = 0
  · subst hms
    rw [advance_loop_zero_ms, if_pos (by omega), Nat.sub_zero]
  by_cases hr0 : r = 0
  · subst hr0
    rw [if_neg (show ¬ms ≤ 0 by omega)]
    exact advance_loop_sd_exhausted fuel ms M (by omega) (by omega)
  obtain ⟨f, rfl⟩ : ∃ f, fuel = f + 1 := ⟨fuel - 1, by omega⟩
  rw [advance_loop, if_neg hms]
  rw [if_neg (show ¬(sdstate M r).main_time_remaining = 0 from hr0)]
  simp only [sdstate]
  by_cases hmr : ms ≤ r
  · have h1 : r ⊓ ms = ms := by omega
    rw [h1, Nat.sub_self, advance_loop_zero_ms, if_pos hmr]
  · have h1 : r ⊓ ms = r := by omega
    rw [h1, Nat.sub_self, if_neg hmr]
    have step := advance_loop_sd_exhausted f (ms - r) M (by omega) (by omega)
    unfold sdstate at step
    exact step

/-- advance_clock on any reachable sudden-death state. -/
lemma advance_clock_sd (M r ms : Nat) :
    advance_clock (sdstate M r) ms =
      if ms ≤ r then sdstate M (r - ms) else sdtimed M := by
  unfold advance_clock
  rw [if_neg (by simp [sdstate])]
  exact advance_loop_sdstate _ _ _ _ (by omega)

/-- advance_clock leaves a clock that cannot time out untouched. -/
lemma advance_clock_no_timeout (ts : time_system) (ms : Nat)
    (h : ts.can_timeout = false) : advance_clock ts ms = ts := by
  unfold advance_clock
  rw [if_pos (Or.inl h)]

/-- advance_clock leaves a timed-out clock untouched. -/
lemma advance_clock_timed_out (ts : time_system) (ms : Nat)
    (h : ts.timed_out = true) : advance_clock ts ms = ts := by
  unfold advance_clock
  rw [if_pos (Or.inr h)]

/-- Folding advance_clock over a list of calls preserves any predicate that
each single call preserves. -/
lemma foldl_advance_preserves (P : time_system → Prop)
    (hstep : ∀ ts ms, P ts → P (advance_clock ts ms)) :
    ∀ (calls : List Nat) (ts : time_system), P ts → P (calls.foldl advance_clock ts) := by
  intro calls
  induction calls with
  | nil => intro ts h; exact h
  | cons m rest ih => intro ts h; exact ih _ (hstep _ _ h)

/-- A clock freshly produced by one of the three presets, where the byo-yomi
preset receives positive `u32` stone and period counts. -/
def valid_preset (ts : time_system) : Prop :=
  (∃ M, ts = set_sudden_death M) ∨
  (∃ T, ts = set_time_per_turn T) ∨
  (∃ m t s p, s < U32 ∧ p < U32 ∧ 1 ≤ s ∧ 1 ≤ p ∧ ts = set_time_system m t s p)

/-- C1 (counterexample): the byo-yomi preset accepts a zero stone count, and a
single `advance_clock` call on such a clock wraps `byo_yomi_stones_remaining`
to `2^32 - 1`, above its configured value of 0 — the conservation claim fails
for a clock built by one of the three presets. -/
theorem clock_conservation_counterexample :
    ¬ withinBounds (advance_clock (set_time_system 0 1000 0 1) 500) := by
  decide

/-- C1 (amended): for sudden-death and fixed-time-per-turn clocks, and for
byo-yomi clocks whose configured stone and period counts are positive, every
remaining budget stays within `[0, its configured counterpart]` after any
sequence of advance_clock calls with non-negative millisecond arguments. -/
theorem clock_conservation (ts : time_system) (h : valid_preset ts) (calls : List Nat) :
    withinBounds (calls.foldl advance_clock ts) := by
  rcases h with ⟨M, rfl⟩ | ⟨T, rfl⟩ | ⟨m, t, s, p, hsU, hpU, hs1, hp1, rfl⟩
  · have hP := foldl_advance_preserves
      (fun u => (∃ r, r ≤ M ∧ u = sdstate M r) ∨ u = sdtimed M)
      (by
        intro u ms hu
        rcases hu with ⟨r, hr, rfl⟩ | rfl
        · rw [advance_clock_sd]
          by_cases hmr : ms ≤ r
          · rw [if_pos hmr]
            exact Or.inl ⟨r - ms, by omega, rfl⟩
          · rw [if_neg hmr]
            exact Or.inr rfl
        · rw [advance_clock_timed_out _ _ rfl]
          exact Or.inr rfl)
      calls (set_sudden_death M) (Or.inl ⟨M, le_refl M, rfl⟩)
    rcases hP with ⟨r, hr, heq⟩ | heq <;> rw [heq]
    · exact ⟨hr, Nat.le_refl 0, Nat.le_refl 0, Nat.le_refl 0⟩
    · exact ⟨Nat.zero_le _, Nat.le_refl 0, Nat.le_refl 0, Nat.le_refl 0⟩
  · have hP := foldl_advance_preserves (fun u => u = set_time_per_turn T)
      (by
        intro u ms hu
        subst hu
        rw [advance_clock_no_timeout _ _ rfl])
      calls (set_time_per_turn T) rfl
    rw [hP]
    exact ⟨Nat.le_refl _, Nat.le_refl _, Nat.le_refl _, Nat.le_refl _⟩
  · have hP := foldl_advance_preserves LInv
      (fun u ms hu => advance_clock_LInv u ms hu)
      calls (set_time_system m t s p)
      ⟨⟨Nat.le_refl _, Nat.le_refl _, Nat.le_refl _, Nat.le_refl _⟩,
        hs1, hsU, hp1, hpU, fun _ => ⟨hs1, hp1⟩⟩
    exact hP.1

/-- Witness for `clock_conservation`: a concrete positive byo-yomi clock and a
concrete two-call sequence. -/
theorem clock_conservation_witness :
    withinBounds (([10000, 40000] : List Nat).foldl advance_clock
      (set_time_system 0 30000 1 1)) :=
  clock_conservation _
    (Or.inr (Or.inr ⟨0, 30000, 1, 1, by decide, by decide, by decide, by decide, rfl⟩))
    _

/-- C2: a clock configured by the byo-yomi preset with main_time 0, one 30000 ms
period and one stone, advanced once by 30000 ms, is timed out. -/
theorem timeout_scenario :
    (advance_clock (set_time_system 0 30000 1 1) 30000).timed_out = true := by
  decide

set_option maxRecDepth 8000 in
/-- The instrumented loop computes the same clock state as the plain loop. -/
lemma advance_loop_charges_fst : ∀ (fuel ms : Nat) (ts : time_system) (c : Bool),
    (advance_loop_charges fuel ms ts c).1 = advance_loop fuel ms ts c := by
  intro fuel
  induction fuel with
  | zero => intro ms ts c; rfl
  | succ f ih =>
    intro ms ts c
    rw [advance_loop_charges, advance_loop]
    by_cases hms : ms = 0
    · rw [if_pos hms, if_pos hms]
    rw [if_neg hms, if_neg hms]
    by_cases hmain : ts.main_time_remaining = 0
    · rw [if_pos hmain, if_pos hmain]
      cases c with
      | true =>
        simp only [if_true]
        by_cases htr : ts.byo_yomi_time_remaining - ts.byo_yomi_time_remaining ⊓ ms = 0
        · rw [if_pos htr, if_pos htr]
          by_cases hper : u32dec ts.byo_yomi_periods_remaining = 0
          · rw [if_pos hper, if_pos hper]
          · rw [if_neg hper, if_neg hper]
            exact ih _ _ _
        · rw [if_neg htr, if_neg htr]
          by_cases hst : ts.byo_yomi_stones_remaining = 0
          · rw [if_pos hst, if_pos hst]
            exact ih _ _ _
          · rw [if_neg hst, if_neg hst]
            exact ih _ _ _
      | false =>
        simp only [Bool.false_eq_true, if_false]
        by_cases htr : ts.byo_yomi_time_remaining - ts.byo_yomi_time_remaining ⊓ ms = 0
        · rw [if_pos htr, if_pos htr]
          by_cases hper : u32dec ts.byo_yomi_periods_remaining = 0
          · rw [if_pos hper, if_pos hper]
          · rw [if_neg hper, if_neg hper]
            exact ih _ _ _
        · rw [if_neg htr, if_neg htr]
          by_cases hst : u32dec ts.byo_yomi_stones_remaining = 0
          · rw [if_pos hst, if_pos hst]
            exact ih _ _ _
          · rw [if_neg hst, if_neg hst]
            exact ih _ _ _
    · rw [if_neg hmain, if_neg hmain]
      exact ih _ _ _

set_option maxRecDepth 8000 in
/-- Once the stone of this call has been charged, no further charge happens. -/
lemma advance_loop_charges_consumed : ∀ (fuel ms : Nat) (ts : time_system),
    (advance_loop_charges fuel ms ts true).2 = 0 := by
  intro fuel
  induction fuel with
  | zero => intro ms ts; rfl
  | succ f ih =>
    intro ms ts
    rw [advance_loop_charges]
    by_cases hms : ms = 0
    · rw [if_pos hms]
    rw [if_neg hms]
    by_cases hmain : ts.main_time_remaining = 0
    · rw [if_pos hmain]
      simp only [if_true]
      by_cases htr : ts.byo_yomi_time_remaining - ts.byo_yomi_time_remaining ⊓ ms = 0
      · rw [if_pos htr]
        by_cases hper : u32dec ts.byo_yomi_periods_remaining = 0
        · rw [if_pos hper]
        · rw [if_neg hper]
          simpa using ih _ _
      · rw [if_neg htr]
        by_cases hst : ts.byo_yomi_stones_remaining = 0
        · rw [if_pos hst]
          simpa using ih _ _
        · rw [if_neg hst]
          simpa using ih _ _
    · rw [if_neg hmain]
      exact ih _ _

set_option maxRecDepth 8000 in
/-- The first loop pass that lands in overtime charges the stone: exactly one
charge happens when the loop starts in overtime. -/
lemma advance_loop_charges_overtime (fuel ms : Nat) (ts : time_system)
    (hmain : ts.main_time_remaining = 0) (hms : ¬ms = 0) (hf : 1 ≤ fuel) :
    (advance_loop_charges fuel ms ts false).2 = 1 := by
  obtain ⟨f, rfl⟩ : ∃ f, fuel = f + 1 := ⟨fuel - 1, by omega⟩
  rw [advance_loop_charges]
  rw [if_neg hms, if_pos hmain]
  simp only [Bool.false_eq_true, if_false]
  by_cases htr : ts.byo_yomi_time_remaining - ts.byo_yomi_time_remaining ⊓ ms = 0
  · rw [if_pos htr]
    by_cases hper : u32dec ts.byo_yomi_periods_remaining = 0
    · rw [if_pos hper]
    · rw [if_neg hper]
      simp [advance_loop_charges_consumed]
  · rw [if_neg htr]
    by_cases hst : u32dec ts.byo_yomi_stones_remaining = 0
    · rw [if_pos hst]
      simp [advance_loop_charges_consumed]
    · rw [if_neg hst]
      simp [advance_loop_charges_consumed]

/-- With elapsed time exceeding the remaining main time, the loop charges
exactly one byo-yomi stone. -/
lemma advance_loop_charges_one (fuel ms : Nat) (ts : time_system)
    (hlt : ts.main_time_remaining < ms) (hf : 2 ≤ fuel) :
    (advance_loop_charges fuel ms ts false).2 = 1 := by
  by_cases hmain : ts.main_time_remaining = 0
  · exact advance_loop_charges_overtime fuel ms ts hmain (by omega) (by omega)
  · obtain ⟨f, rfl⟩ : ∃ f, fuel = f + 1 := ⟨fuel - 1, by omega⟩
    rw [advance_loop_charges]
    rw [if_neg (show ¬ms = 0 by omega), if_neg hmain]
    have h1 : ts.main_time_remaining ⊓ ms = ts.main_time_remaining := by omega
    rw [h1]
    exact advance_loop_charges_overtime f _ _ (by simp) (by omega) (by omega)

/-- C3: an advance_clock call that reaches overtime charges exactly one byo-yomi
stone, however many period rollovers it spans; and the instrumented clock agrees
with advance_clock. -/
theorem single_stone_per_call (ts : time_system) (ms : Nat)
    (hct : ts.can_timeout = true) (hto : ts.timed_out = false)
    (hms : ts.main_time_remaining < ms) :
    (advance_clock_charges ts ms).2 = 1 ∧
    (advance_clock_charges ts ms).1 = advance_clock ts ms := by
  constructor
  · unfold advance_clock_charges
    rw [if_neg (by simp [hct, hto])]
    exact advance_loop_charges_one _ _ _ hms (by unfold U32; omega)
  · unfold advance_clock_charges advance_clock
    rw [if_neg (by simp [hct, hto]), if_neg (by simp [hct, hto])]
    exact advance_loop_charges_fst _ _ _ _

/-- Witness for `single_stone_per_call`: a 2500 ms call on a clock with 1000 ms
periods spans two period rollovers yet charges exactly one stone. -/
theorem single_stone_per_call_witness :
    (set_time_system 0 1000 3 5).main_time_remaining < 2500 ∧
    (advance_clock_charges (set_time_system 0 1000 3 5) 2500).2 = 1 ∧
    (advance_clock_charges (set_time_system 0 1000 3 5) 2500).1 =
      advance_clock (set_time_system 0 1000 3 5) 2500 :=
  ⟨by decide, single_stone_per_call _ _ (by decide) (by decide) (by decide)⟩

/-- Decimal digit character test, by code point. -/
def is_digit (c : Char) : Bool := decide (48 ≤ c.toNat ∧ c.toNat ≤ 57)

/-- White-space test (space, tab, line feed, carriage return), by code point. -/
def is_space (c : Char) : Bool :=
  decide (c.toNat = 32 ∨ c.toNat = 9 ∨ c.toNat = 10 ∨ c.toNat = 13)

/-- Numeric value of a digit character. -/
def digit_val (c : Char) : Nat := c.toNat - 48

/-- Accumulating decimal read of a digit string. -/
def digits_to_nat (l : List Char) (acc : Nat) : Nat :=
  l.foldl (fun a c => a * 10 + digit_val c) acc

/-- Modelled from the spec: the decimal-integer core of `parse_int`
(stringm.c, which is not under src/): a non-empty all-digit string. -/
def parse_nat (l : List Char) : Option Nat :=
  if l.isEmpty then none
  else if l.all is_digit then some (digits_to_nat l 0) else none

/-- Modelled from the spec: `parse_int` (stringm.c, not under src/) parses an
optionally-negated decimal integer; callers in time_ctrl.c test the parsed
value for sign, so negative literals must parse. -/
def parse_int (l : List Char) : Option Int :=
  if l.head? = some '-' then (parse_nat l.tail).map (fun n => -(n : Int))
  else (parse_nat l).map (fun n => (n : Int))

/-- Modelled from the spec: `str_to_milliseconds` (stringm.c, not under src/):
a duration literal is an integer magnitude optionally suffixed by one of
`ms` (the default, omissible), `s`, `m`, `h`; the negative return of the C
function on a malformed literal is modelled as `none`. -/
def str_to_milliseconds (l : List Char) : Option Nat :=
  let ds := l.takeWhile is_digit
  let sfx := l.dropWhile is_digit
  match parse_nat ds with
  | none => none
  | some v =>
    if sfx = [] then some v
    else if sfx = ['m', 's'] then some v
    else if sfx = ['s'] then some (v * 1000)
    else if sfx = ['m'] then some (v * 60000)
    else if sfx = ['h'] then some (v * 3600000)
    else none

/-- Modelled from the spec: `trim` (stringm.c, not under src/) removes leading
and trailing white space. -/
def trim (l : List Char) : List Char :=
  ((l.dropWhile is_space).reverse.dropWhile is_space).reverse

/-- The C `index` call followed by terminating the string at the separator:
the part before the first occurrence of `c` and the part after it. -/
def split_first (c : Char) : List Char → Option (List Char × List Char)
  | [] => none
  | x :: r =>
    if x = c then some ([], r)
    else (split_first c r).map (fun p => (x :: p.1, p.2))

/-- str_to_time_system (time_ctrl.c): parse `time+numberxtime/number` from the
trimmed copy of the input; the boolean result is the C return value and the
second component is the destination, written only on full success. -/
def str_to_time_system (src : List Char) (dst : time_system) : Bool × time_system :=
  if src.length < 9 then (false, dst)
  else
    let s := trim src
    if s.length < 9 then (false, dst)
    else
      match split_first '+' s with
      | none => (false, dst)
      | some (a, rest) =>
        match str_to_milliseconds a with
        | none => (false, dst)
        | some absolute_milliseconds =>
          match split_first 'x' rest with
          | none => (false, dst)
          | some (b, rest2) =>
            match parse_int b with
            | none => (false, dst)
            | some t =>
              if t < 0 then (false, dst)
              else
                let byoyomi_periods := t.toNat
                match split_first '/' rest2 with
                | none => (false, dst)
                | some (cpart, rest3) =>
                  match str_to_milliseconds cpart with
                  | none => (false, dst)
                  | some byoyomi_milliseconds =>
                    match parse_int rest3 with
                    | none => (false, dst)
                    | some t2 =>
                      if t2 < 1 then (false, dst)
                      else
                        (true, { dst with
                          main_time := absolute_milliseconds,
                          byo_yomi_stones := t2.toNat,
                          byo_yomi_time := byoyomi_milliseconds,
                          byo_yomi_periods := byoyomi_periods })

/-- The character of a decimal digit. -/
def digit_char (d : Nat) : Char := Char.ofNat (48 + d)

/-- Most-significant-first decimal rendering, with a fuel bound on the digit
count (`n` itself always suffices since `n / 10 < n`). -/
def nat_to_digits_aux : Nat → Nat → List Char → List Char
  | 0, _, acc => acc
  | fuel + 1, n, acc =>
    if n = 0 then acc
    else nat_to_digits_aux fuel (n / 10) (digit_char (n % 10) :: acc)

/-- Decimal rendering of a `u32` by `snprintf %u`. -/
def nat_to_digits (n : Nat) : List Char :=
  if n = 0 then ['0'] else nat_to_digits_aux n n []

/-- The unit-selection logic of time_system_to_str for one duration: largest
unit among milliseconds, seconds, minutes, hours that divides the value
exactly (two sequential 60-checks inside the 1000-check, as in the source). -/
def unit_reduce (v0 : Nat) : Nat × List Char :=
  let a0 : List Char := if v0 = 0 then [] else ['m', 's']
  if 1000 ≤ v0 ∧ v0 % 1000 = 0 then
    let v1 := v0 / 1000
    let p1 := if 60 ≤ v1 ∧ v1 % 60 = 0 then (v1 / 60, ['m']) else (v1, ['s'])
    if 60 ≤ p1.1 ∧ p1.1 % 60 = 0 then (p1.1 / 60, ['h']) else p1
  else (v0, a0)

/-- time_system_to_str (time_ctrl.c): the `snprintf "%u%s+%ux%u%s/%u"` output. -/
def time_system_to_str (ts : time_system) : List Char :=
  let ar := unit_reduce ts.main_time
  let br := unit_reduce ts.byo_yomi_time
  nat_to_digits ar.1 ++ ar.2 ++ ['+'] ++ nat_to_digits ts.byo_yomi_periods ++
    ['x'] ++ nat_to_digits br.1 ++ br.2 ++ ['/'] ++ nat_to_digits ts.byo_yomi_stones

lemma is_digit_iff {c : Char} : is_digit c = true ↔ 48 ≤ c.toNat ∧ c.toNat ≤ 57 := by
  simp [is_digit]

lemma digit_char_facts : ∀ d, d < 10 →
    is_digit (digit_char d) = true ∧ digit_val (digit_char d) = d := by
  decide

lemma digit_ne_special {c : Char} (h : is_digit c = true) :
    c ≠ '+' ∧ c ≠ 'x' ∧ c ≠ '/' ∧ c ≠ '-' ∧ is_space c = false := by
  rw [is_digit_iff] at h
  refine ⟨?_, ?_, ?_, ?_, ?_⟩
  · intro he; subst he; revert h; decide
  · intro he; subst he; revert h; decide
  · intro he; subst he; revert h; decide
  · intro he; subst he; revert h; decide
  · simp only [is_space, decide_eq_false_iff_not]
    omega

lemma nat_to_digits_aux_zero (fuel : Nat) (acc : List Char) :
    nat_to_digits_aux fuel 0 acc = acc := by
  cases fuel
  · rfl
  · rw [nat_to_digits_aux]
    simp

lemma nat_to_digits_aux_suffix : ∀ (fuel n : Nat) (acc : List Char),
    ∃ l, nat_to_digits_aux fuel n acc = l ++ acc := by
  intro fuel
  induction fuel with
  | zero => intro n acc; exact ⟨[], rfl⟩
  | succ f ih =>
    intro n acc
    rw [nat_to_digits_aux]
    by_cases h : n = 0
    · rw [if_pos h]; exact ⟨[], rfl⟩
    · rw [if_neg h]
      obtain ⟨l, hl⟩ := ih (n / 10) (digit_char (n % 10) :: acc)
      exact ⟨l ++ [digit_char (n % 10)], by rw [hl]; simp⟩

lemma nat_to_digits_aux_digits : ∀ (fuel n : Nat) (acc : List Char),
    acc.all is_digit = true → (nat_to_digits_aux fuel n acc).all is_digit = true := by
  intro fuel
  induction fuel with
  | zero => intro n acc h; exact h
  | succ f ih =>
    intro n acc h
    rw [nat_to_digits_aux]
    by_cases hn : n = 0
    · rw [if_pos hn]; exact h
    · rw [if_neg hn]
      apply ih
      simp only [List.all_cons, Bool.and_eq_true]
      exact ⟨(digit_char_facts (n % 10) (Nat.mod_lt _ (by omega))).1, h⟩

lemma digits_to_nat_cons (c : Char) (l : List Char) (a : Nat) :
    digits_to_nat (c :: l) a = digits_to_nat l (a * 10 + digit_val c) := rfl

lemma nat_to_digits_aux_val : ∀ (fuel n : Nat), 1 ≤ n → n ≤ fuel →
    ∃ k, 1 ≤ k ∧ ∀ (acc : List Char) (a : Nat),
      digits_to_nat (nat_to_digits_aux fuel n acc) a = digits_to_nat acc (a * 10 ^ k + n) := by
  intro fuel
  induction fuel with
  | zero => intro n h1 h2; exact absurd (le_trans h1 h2) (by decide)
  | succ f ih =>
    intro n h1 h2
    by_cases hq : n / 10 = 0
    · refine ⟨1, le_refl 1, ?_⟩
      intro acc a
      rw [nat_to_digits_aux, if_neg (by omega), hq, nat_to_digits_aux_zero,
        digits_to_nat_cons, (digit_char_facts (n % 10) (Nat.mod_lt _ (by omega))).2]
      have h3 : n % 10 = n := by omega
      rw [h3, pow_one]
    · obtain ⟨k, hk1, hk⟩ := ih (n / 10) (by omega) (by omega)
      refine ⟨k + 1, by omega, ?_⟩
      intro acc a
      rw [nat_to_digits_aux, if_neg (by omega), hk, digits_to_nat_cons,
        (digit_char_facts (n % 10) (Nat.mod_lt _ (by omega))).2]
      congr 1
      have hdm : 10 * (n / 10) + n % 10 = n := Nat.div_add_mod n 10
      calc (a * 10 ^ k + n / 10) * 10 + n % 10
          = a * (10 ^ k * 10) + (10 * (n / 10) + n % 10) := by ring
        _ = a * 10 ^ (k + 1) + n := by rw [hdm, pow_succ]

lemma digits_to_nat_nat_to_digits (n : Nat) : digits_to_nat (nat_to_digits n) 0 = n := by
  unfold nat_to_digits
  by_cases h : n = 0
  · rw [if_pos h, h]; decide
  · rw [if_neg h]
    obtain ⟨k, _, hk⟩ := nat_to_digits_aux_val n n (by omega) (le_refl n)
    rw [hk [] 0]
    simp [digits_to_nat]

lemma nat_to_digits_all (n : Nat) : (nat_to_digits n).all is_digit = true := by
  unfold nat_to_digits
  by_cases h : n = 0
  · rw [if_pos h]; decide
  · rw [if_neg h]
    exact nat_to_digits_aux_digits n n [] rfl

lemma nat_to_digits_ne_nil (n : Nat) : nat_to_digits n ≠ [] := by
  unfold nat_to_digits
  by_cases h : n = 0
  · rw [if_pos h]; simp
  · rw [if_neg h]
    obtain ⟨f, hf⟩ : ∃ f, n = f + 1 := ⟨n - 1, by omega⟩
    rw [hf, nat_to_digits_aux, if_neg (by omega)]
    obtain ⟨l, hl⟩ := nat_to_digits_aux_suffix f ((f + 1) / 10) [digit_char ((f + 1) % 10)]
    rw [hl]
    simp

lemma isEmpty_false_of_ne_nil {l : List Char} (h : l ≠ []) : l.isEmpty = false := by
  cases l
  · exact absurd rfl h
  · rfl

lemma parse_nat_nat_to_digits (n : Nat) : parse_nat (nat_to_digits n) = some n := by
  unfold parse_nat
  rw [isEmpty_false_of_ne_nil (nat_to_digits_ne_nil n)]
  rw [if_neg (by simp), if_pos (nat_to_digits_all n), digits_to_nat_nat_to_digits]

lemma parse_int_nat_to_digits (n : Nat) : parse_int (nat_to_digits n) = some (n : Int) := by
  have hall := nat_to_digits_all n
  cases hD : nat_to_digits n with
  | nil => exact absurd hD (nat_to_digits_ne_nil n)
  | cons c r =>
    have hc : is_digit c = true := by
      rw [hD] at hall
      simp only [List.all_cons, Bool.and_eq_true] at hall
      exact hall.1
    have hhead : (c :: r).head? ≠ some '-' := by
      simp only [List.head?_cons, ne_eq, Option.some.injEq]
      exact (digit_ne_special hc).2.2.2.1
    rw [parse_int, if_neg hhead, ← hD, parse_nat_nat_to_digits]
    rfl

lemma takeWhile_dropWhile_append {p : Char → Bool} :
    ∀ (xs ys : List Char), xs.all p = true →
    (ys = [] ∨ ∃ y ys', ys = y :: ys' ∧ p y = false) →
    (xs ++ ys).takeWhile p = xs ∧ (xs ++ ys).dropWhile p = ys := by
  intro xs
  induction xs with
  | nil =>
    intro ys _ hys
    rcases hys with rfl | ⟨y, ys', rfl, hy⟩
    · exact ⟨rfl, rfl⟩
    · constructor
      · simp [List.takeWhile_cons, hy]
      · simp [List.dropWhile_cons, hy]
  | cons x xs ih =>
    intro ys hall hys
    simp only [List.all_cons, Bool.and_eq_true] at hall
    obtain ⟨h1, h2⟩ := ih ys hall.2 hys
    constructor
    · simp [List.takeWhile_cons, hall.1, h1]
    · simp [List.dropWhile_cons, hall.1, h2]

lemma str_to_ms_of_unit (v : Nat) (u : List Char) (mult : Nat)
    (hu : (u = [] ∧ mult = 1) ∨ (u = ['m', 's'] ∧ mult = 1) ∨
          (u = ['s'] ∧ mult = 1000) ∨ (u = ['m'] ∧ mult = 60000) ∨
          (u = ['h'] ∧ mult = 3600000)) :
    str_to_milliseconds (nat_to_digits v ++ u) = some (v * mult) := by
  have hys : u = [] ∨ ∃ y ys', u = y :: ys' ∧ is_digit y = false := by
    rcases hu with ⟨rfl, _⟩ | ⟨rfl, _⟩ | ⟨rfl, _⟩ | ⟨rfl, _⟩ | ⟨rfl, _⟩
    · exact Or.inl rfl
    · exact Or.inr ⟨'m', ['s'], rfl, by decide⟩
    · exact Or.inr ⟨'s', [], rfl, by decide⟩
    · exact Or.inr ⟨'m', [], rfl, by decide⟩
    · exact Or.inr ⟨'h', [], rfl, by decide⟩
  obtain ⟨htw, hdw⟩ :=
    takeWhile_dropWhile_append (nat_to_digits v) u (nat_to_digits_all v) hys
  unfold str_to_milliseconds
  rw [htw, hdw]
  dsimp only
  rw [parse_nat_nat_to_digits]
  dsimp only
  rcases hu with ⟨rfl, rfl⟩ | ⟨rfl, rfl⟩ | ⟨rfl, rfl⟩ | ⟨rfl, rfl⟩ | ⟨rfl, rfl⟩
  · simp
  · rw [if_neg (by decide), if_pos rfl, Nat.mul_one]
  · rw [if_neg (by decide), if_neg (by decide), if_pos rfl]
  · rw [if_neg (by decide), if_neg (by decide), if_neg (by decide), if_pos rfl]
  · rw [if_neg (by decide), if_neg (by decide), if_neg (by decide),
      if_neg (by decide), if_pos rfl]

lemma unit_reduce_spec (x : Nat) :
    (unit_reduce x = (x, []) ∧ x = 0) ∨
    unit_reduce x = (x, ['m', 's']) ∨
    (∃ v, unit_reduce x = (v, ['s']) ∧ v * 1000 = x) ∨
    (∃ v, unit_reduce x = (v, ['m']) ∧ v * 60000 = x) ∨
    (∃ v, unit_reduce x = (v, ['h']) ∧ v * 3600000 = x) := by
  unfold unit_reduce
  dsimp only
  by_cases h1 : 1000 ≤ x ∧ x % 1000 = 0
  · rw [if_pos h1]
    by_cases h2 : 60 ≤ x / 1000 ∧ x / 1000 % 60 = 0
    · rw [if_pos h2]
      dsimp only
      by_cases h3 : 60 ≤ x / 1000 / 60 ∧ x / 1000 / 60 % 60 = 0
      · rw [if_pos h3]
        refine Or.inr (Or.inr (Or.inr (Or.inr ⟨x / 1000 / 60 / 60, rfl, ?_⟩)))
        omega
      · rw [if_neg h3]
        refine Or.inr (Or.inr (Or.inr (Or.inl ⟨x / 1000 / 60, rfl, ?_⟩)))
        omega
    · rw [if_neg h2]
      dsimp only
      rw [if_neg h2]
      refine Or.inr (Or.inr (Or.inl ⟨x / 1000, rfl, ?_⟩))
      omega
  · rw [if_neg h1]
    by_cases h0 : x = 0
    · rw [if_pos h0]
      exact Or.inl ⟨rfl, h0⟩
    · rw [if_neg h0]
      exact Or.inr (Or.inl rfl)

lemma split_first_append (c : Char) :
    ∀ (A R : List Char), (∀ a ∈ A, a ≠ c) → split_first c (A ++ c :: R) = some (A, R) := by
  intro A
  induction A with
  | nil =>
    intro R _
    rw [List.nil_append, split_first, if_pos rfl]
  | cons x A ih =>
    intro R h
    rw [List.cons_append, split_first,
      if_neg (h x (List.mem_cons_self x A)),
      ih R (fun a ha => h a (List.mem_cons_of_mem x ha))]
    rfl

lemma dropWhile_of_all_false {p : Char → Bool} (l : List Char)
    (h : ∀ x ∈ l, p x = false) : l.dropWhile p = l := by
  cases l with
  | nil => rfl
  | cons x r => simp [List.dropWhile_cons, h x (List.mem_cons_self x r)]

lemma trim_of_no_space (l : List Char) (h : ∀ x ∈ l, is_space x = false) : trim l = l := by
  unfold trim
  rw [dropWhile_of_all_false l h,
    dropWhile_of_all_false l.reverse (fun x hx => h x (List.mem_reverse.mp hx)),
    List.reverse_reverse]

lemma unit_chars {x : Nat} : ∀ c ∈ (unit_reduce x).2, c = 'm' ∨ c = 's' ∨ c = 'h' := by
  rcases unit_reduce_spec x with ⟨h, _⟩ | h | ⟨v, h, _⟩ | ⟨v, h, _⟩ | ⟨v, h, _⟩ <;>
    rw [h] <;> intro c hc <;> simp at hc <;> rcases hc with rfl | rfl <;> simp

lemma str_to_ms_unit_reduce (x : Nat) :
    str_to_milliseconds (nat_to_digits (unit_reduce x).1 ++ (unit_reduce x).2) = some x := by
  rcases unit_reduce_spec x with ⟨h, _⟩ | h | ⟨v, h, hv⟩ | ⟨v, h, hv⟩ | ⟨v, h, hv⟩
  · rw [h]
    simpa using str_to_ms_of_unit x [] 1 (Or.inl ⟨rfl, rfl⟩)
  · rw [h]
    simpa using str_to_ms_of_unit x ['m', 's'] 1 (Or.inr (Or.inl ⟨rfl, rfl⟩))
  · rw [h]
    simpa [hv] using str_to_ms_of_unit v ['s'] 1000 (Or.inr (Or.inr (Or.inl ⟨rfl, rfl⟩)))
  · rw [h]
    simpa [hv] using
      str_to_ms_of_unit v ['m'] 60000 (Or.inr (Or.inr (Or.inr (Or.inl ⟨rfl, rfl⟩))))
  · rw [h]
    simpa [hv] using
      str_to_ms_of_unit v ['h'] 3600000 (Or.inr (Or.inr (Or.inr (Or.inr ⟨rfl, rfl⟩))))

lemma digits_no_sep (n : Nat) :
    ∀ a ∈ nat_to_digits n, a ≠ '+' ∧ a ≠ 'x' ∧ a ≠ '/' ∧ is_space a = false := by
  intro a ha
  have hd : is_digit a = true := by
    have := nat_to_digits_all n
    simp only [List.all_eq_true] at this
    exact this a ha
  obtain ⟨h1, h2, h3, _, h5⟩ := digit_ne_special hd
  exact ⟨h1, h2, h3, h5⟩

lemma duration_no_sep (x : Nat) :
    ∀ a ∈ nat_to_digits (unit_reduce x).1 ++ (unit_reduce x).2,
      a ≠ '+' ∧ a ≠ 'x' ∧ a ≠ '/' ∧ is_space a = false := by
  intro a ha
  rcases List.mem_append.mp ha with h | h
  · exact digits_no_sep _ a h
  · rcases unit_chars a h with rfl | rfl | rfl <;>
      exact ⟨by decide, by decide, by decide, by decide⟩

lemma fmt_decomposition (ts : time_system) :
    time_system_to_str ts =
      (nat_to_digits (unit_reduce ts.main_time).1 ++ (unit_reduce ts.main_time).2) ++
      '+' :: (nat_to_digits ts.byo_yomi_periods ++
      'x' :: ((nat_to_digits (unit_reduce ts.byo_yomi_time).1 ++
               (unit_reduce ts.byo_yomi_time).2) ++
      '/' :: nat_to_digits ts.byo_yomi_stones)) := by
  unfold time_system_to_str
  simp [List.append_assoc]

lemma fmt_no_space (ts : time_system) : ∀ c ∈ time_system_to_str ts, is_space c = false := by
  intro c hc
  rw [fmt_decomposition ts] at hc
  rcases List.mem_append.mp hc with h | h
  · exact (duration_no_sep _ c h).2.2.2
  rcases List.mem_cons.mp h with rfl | h
  · decide
  rcases List.mem_append.mp h with h | h
  · exact (digits_no_sep _ c h).2.2.2
  rcases List.mem_cons.mp h with rfl | h
  · decide
  rcases List.mem_append.mp h with h | h
  · exact (duration_no_sep _ c h).2.2.2
  rcases List.mem_cons.mp h with rfl | h
  · decide
  exact (digits_no_sep _ c h).2.2.2

/-- Full evaluation of str_to_time_system on a Format output with positive
period and stone counts and length at least 9. -/
lemma parse_of_format (ts dst : time_system)
    (hp : 1 ≤ ts.byo_yomi_periods) (hs : 1 ≤ ts.byo_yomi_stones)
    (hlen : 9 ≤ (time_system_to_str ts).length) :
    str_to_time_system (time_system_to_str ts) dst =
      (true, { dst with
        main_time := ts.main_time, byo_yomi_stones := ts.byo_yomi_stones,
        byo_yomi_time := ts.byo_yomi_time, byo_yomi_periods := ts.byo_yomi_periods }) := by
  have h1 : ¬ (time_system_to_str ts).length < 9 := by omega
  have htrim : trim (time_system_to_str ts) = time_system_to_str ts :=
    trim_of_no_space _ (fmt_no_space ts)
  have hsplit1 : split_first '+' (time_system_to_str ts) =
      some (nat_to_digits (unit_reduce ts.main_time).1 ++ (unit_reduce ts.main_time).2,
        nat_to_digits ts.byo_yomi_periods ++
          'x' :: ((nat_to_digits (unit_reduce ts.byo_yomi_time).1 ++
                   (unit_reduce ts.byo_yomi_time).2) ++
          '/' :: nat_to_digits ts.byo_yomi_stones)) := by
    rw [fmt_decomposition ts]
    exact split_first_append '+' _ _ (fun a ha => (duration_no_sep _ a ha).1)
  have hsplit2 : split_first 'x'
      (nat_to_digits ts.byo_yomi_periods ++
        'x' :: ((nat_to_digits (unit_reduce ts.byo_yomi_time).1 ++
                 (unit_reduce ts.byo_yomi_time).2) ++
        '/' :: nat_to_digits ts.byo_yomi_stones)) =
      some (nat_to_digits ts.byo_yomi_periods,
        (nat_to_digits (unit_reduce ts.byo_yomi_time).1 ++
         (unit_reduce ts.byo_yomi_time).2) ++
        '/' :: nat_to_digits ts.byo_yomi_stones) :=
    split_first_append 'x' _ _ (fun a ha => (digits_no_sep _ a ha).2.1)
  have hsplit3 : split_first '/'
      ((nat_to_digits (unit_reduce ts.byo_yomi_time).1 ++
        (unit_reduce ts.byo_yomi_time).2) ++
       '/' :: nat_to_digits ts.byo_yomi_stones) =
      some (nat_to_digits (unit_reduce ts.byo_yomi_time).1 ++
            (unit_reduce ts.byo_yomi_time).2,
        nat_to_digits ts.byo_yomi_stones) :=
    split_first_append '/' _ _ (fun a ha => (duration_no_sep _ a ha).2.2.1)
  unfold str_to_time_system
  rw [if_neg h1]
  try dsimp only
  rw [htrim, if_neg h1, hsplit1]
  try dsimp only
  rw [str_to_ms_unit_reduce]
  try dsimp only
  rw [hsplit2]
  try dsimp only
  rw [parse_int_nat_to_digits]
  try dsimp only
  rw [if_neg (show ¬(ts.byo_yomi_periods : Int) < 0 by omega)]
  try dsimp only
  rw [hsplit3]
  try dsimp only
  rw [str_to_ms_unit_reduce]
  try dsimp only
  rw [parse_int_nat_to_digits]
  try dsimp only
  rw [if_neg (show ¬(ts.byo_yomi_stones : Int) < 1 by omega)]
  simp

/-- C4 (amended): for every clock value with positive period and stone counts
whose Format output is at least 9 characters long, Parse recovers exactly the
four configured fields and Format of the parsed value reproduces the string. -/
theorem format_parse_round_trip (ts dst : time_system)
    (hp : 1 ≤ ts.byo_yomi_periods) (hs : 1 ≤ ts.byo_yomi_stones)
    (hlen : 9 ≤ (time_system_to_str ts).length) :
    (str_to_time_system (time_system_to_str ts) dst).1 = true ∧
    (str_to_time_system (time_system_to_str ts) dst).2.main_time = ts.main_time ∧
    (str_to_time_system (time_system_to_str ts) dst).2.byo_yomi_periods =
      ts.byo_yomi_periods ∧
    (str_to_time_system (time_system_to_str ts) dst).2.byo_yomi_time =
      ts.byo_yomi_time ∧
    (str_to_time_system (time_system_to_str ts) dst).2.byo_yomi_stones =
      ts.byo_yomi_stones ∧
    time_system_to_str ((str_to_time_system (time_system_to_str ts) dst).2) =
      time_system_to_str ts := by
  rw [parse_of_format ts dst hp hs hlen]
  refine ⟨rfl, rfl, rfl, rfl, rfl, ?_⟩
  unfold time_system_to_str
  rfl

/-- Witness for `format_parse_round_trip`: the clock from the specification
example; its canonical rendering is `5m+5x30s/1` (length 10). -/
theorem format_parse_round_trip_witness :
    1 ≤ (set_time_system 300000 30000 1 5).byo_yomi_periods ∧
    1 ≤ (set_time_system 300000 30000 1 5).byo_yomi_stones ∧
    9 ≤ (time_system_to_str (set_time_system 300000 30000 1 5)).length ∧
    ((str_to_time_system (time_system_to_str (set_time_system 300000 30000 1 5))
        (set_sudden_death 0)).1 = true ∧
     (str_to_time_system (time_system_to_str (set_time_system 300000 30000 1 5))
        (set_sudden_death 0)).2.main_time = (set_time_system 300000 30000 1 5).main_time ∧
     (str_to_time_system (time_system_to_str (set_time_system 300000 30000 1 5))
        (set_sudden_death 0)).2.byo_yomi_periods =
       (set_time_system 300000 30000 1 5).byo_yomi_periods ∧
     (str_to_time_system (time_system_to_str (set_time_system 300000 30000 1 5))
        (set_sudden_death 0)).2.byo_yomi_time =
       (set_time_system 300000 30000 1 5).byo_yomi_time ∧
     (str_to_time_system (time_system_to_str (set_time_system 300000 30000 1 5))
        (set_sudden_death 0)).2.byo_yomi_stones =
       (set_time_system 300000 30000 1 5).byo_yomi_stones ∧
     time_system_to_str ((str_to_time_system
        (time_system_to_str (set_time_system 300000 30000 1 5))
        (set_sudden_death 0)).2) =
       time_system_to_str (set_time_system 300000 30000 1 5)) :=
  ⟨by decide, by decide, by decide,
    format_parse_round_trip _ _ (by decide) (by decide) (by decide)⟩

/-- C4 (counterexample): `Parse("300s+5x30s/1")` succeeds with
`main_time = 300000`, but Format renders 300000 ms with its largest exact
unit as `5m`, so `Format(Parse("300s+5x30s/1"))` is `"5m+5x30s/1"`, not
`"300s+5x30s/1"` — the claimed equation fails on the claim's own example. -/
theorem round_trip_counterexample :
    (str_to_time_system ("300s+5x30s/1".toList) (set_sudden_death 0)).1 = true ∧
    (str_to_time_system ("300s+5x30s/1".toList) (set_sudden_death 0)).2.main_time =
      300000 ∧
    time_system_to_str
        ((str_to_time_system ("300s+5x30s/1".toList) (set_sudden_death 0)).2) =
      "5m+5x30s/1".toList ∧
    time_system_to_str
        ((str_to_time_system ("300s+5x30s/1".toList) (set_sudden_death 0)).2) ≠
      "300s+5x30s/1".toList := by
  refine ⟨by decide, by decide, by decide, by decide⟩

/-- Either the parse fails and the destination pair is returned untouched, or
it succeeds and exactly the four configured fields are overwritten, with a
positive stone count. -/
lemma str_to_time_system_cases (l : List Char) (dst : time_system) :
    str_to_time_system l dst = (false, dst) ∨
    ∃ m p t s, 1 ≤ s ∧
      str_to_time_system l dst = (true, { dst with
        main_time := m, byo_yomi_stones := s, byo_yomi_time := t,
        byo_yomi_periods := p }) := by
  unfold str_to_time_system
  by_cases h1 : l.length < 9
  · rw [if_pos h1]
    exact Or.inl rfl
  rw [if_neg h1]
  try dsimp only
  by_cases h2 : (trim l).length < 9
  · rw [if_pos h2]
    exact Or.inl rfl
  rw [if_neg h2]
  cases hq1 : split_first '+' (trim l) with
  | none => exact Or.inl rfl
  | some pr =>
    obtain ⟨a, rest⟩ := pr
    try dsimp only
    cases hq2 : str_to_milliseconds a with
    | none => exact Or.inl rfl
    | some abs =>
      try dsimp only
      cases hq3 : split_first 'x' rest with
      | none => exact Or.inl rfl
      | some pr2 =>
        obtain ⟨b, rest2⟩ := pr2
        try dsimp only
        cases hq4 : parse_int b with
        | none => exact Or.inl rfl
        | some t =>
          try dsimp only
          by_cases ht : t < 0
          · rw [if_pos ht]
            exact Or.inl rfl
          rw [if_neg ht]
          try dsimp only
          cases hq5 : split_first '/' rest2 with
          | none => exact Or.inl rfl
          | some pr3 =>
            obtain ⟨cp, rest3⟩ := pr3
            try dsimp only
            cases hq6 : str_to_milliseconds cp with
            | none => exact Or.inl rfl
            | some byo =>
              try dsimp only
              cases hq7 : parse_int rest3 with
              | none => exact Or.inl rfl
              | some t2 =>
                try dsimp only
                by_cases ht2 : t2 < 1
                · rw [if_pos ht2]
                  exact Or.inl rfl
                rw [if_neg ht2]
                exact Or.inr ⟨abs, t.toNat, byo, t2.toNat, by omega, rfl⟩

/-- C6 (counterexample): the input `300s+0x30s/1` has a period count of 0,
which is not positive, yet Parse accepts it (the period count is only checked
against being negative), storing byo_yomi_periods = 0. -/
theorem parse_counts_counterexample :
    (str_to_time_system ("300s+0x30s/1".toList) (set_sudden_death 0)).1 = true ∧
    (str_to_time_system ("300s+0x30s/1".toList) (set_sudden_death 0)).2.byo_yomi_periods
      = 0 := by
  refine ⟨by decide, by decide⟩

/-- C6 (amended): a successful Parse guarantees a positive stone count (the
stone count is checked against `< 1`); the period count is only required to be
non-negative, so a zero period count is accepted. -/
theorem parse_requires_positive_stones (l : List Char) (dst : time_system)
    (h : (str_to_time_system l dst).1 = true) :
    1 ≤ (str_to_time_system l dst).2.byo_yomi_stones := by
  rcases str_to_time_system_cases l dst with heq | ⟨m, p, t, s, hs1, heq⟩
  · rw [heq] at h
    cases h
  · rw [heq]
    simpa using hs1

/-- Witness for `parse_requires_positive_stones` at a concrete accepted input. -/
theorem parse_requires_positive_stones_witness :
    (str_to_time_system ("300s+5x30s/1".toList) (set_sudden_death 0)).1 = true ∧
    1 ≤ (str_to_time_system ("300s+5x30s/1".toList)
          (set_sudden_death 0)).2.byo_yomi_stones :=
  ⟨by decide, parse_requires_positive_stones _ _ (by decide)⟩

/-- C7: whenever Parse rejects its input, the destination is returned
completely unmodified. -/
theorem parse_failure_leaves_dst (l : List Char) (dst : time_system)
    (h : (str_to_time_system l dst).1 = false) :
    (str_to_time_system l dst).2 = dst := by
  rcases str_to_time_system_cases l dst with heq | ⟨m, p, t, s, _, heq⟩
  · rw [heq]
  · rw [heq] at h
    cases h

/-- Witness for `parse_failure_leaves_dst` at a rejected (too short) input. -/
theorem parse_failure_leaves_dst_witness :
    (str_to_time_system ("5m+5x".toList) (set_time_per_turn 7000)).1 = false ∧
    (str_to_time_system ("5m+5x".toList) (set_time_per_turn 7000)).2 =
      set_time_per_turn 7000 :=
  ⟨by decide, parse_failure_leaves_dst _ _ (by decide)⟩

/-- C9: a successful Parse assigns only the four configured fields; every
remaining budget, can_timeout and timed_out keep the destination's values. -/
theorem parse_success_frame (l : List Char) (dst : time_system)
    (h : (str_to_time_system l dst).1 = true) :
    (str_to_time_system l dst).2.main_time_remaining = dst.main_time_remaining ∧
    (str_to_time_system l dst).2.byo_yomi_time_remaining = dst.byo_yomi_time_remaining ∧
    (str_to_time_system l dst).2.byo_yomi_stones_remaining =
      dst.byo_yomi_stones_remaining ∧
    (str_to_time_system l dst).2.byo_yomi_periods_remaining =
      dst.byo_yomi_periods_remaining ∧
    (str_to_time_system l dst).2.can_timeout = dst.can_timeout ∧
    (str_to_time_system l dst).2.timed_out = dst.timed_out := by
  rcases str_to_time_system_cases l dst with heq | ⟨m, p, t, s, _, heq⟩
  · rw [heq] at h
    cases h
  · rw [heq]
    exact ⟨rfl, rfl, rfl, rfl, rfl, rfl⟩

/-- Witness for `parse_success_frame` at a concrete accepted input. -/
theorem parse_success_frame_witness :
    (str_to_time_system ("1h+3x45s/10".toList) (set_time_per_turn 9000)).1 = true ∧
    (str_to_time_system ("1h+3x45s/10".toList)
      (set_time_per_turn 9000)).2.timed_out = (set_time_per_turn 9000).timed_out :=
  ⟨by decide, (parse_success_frame _ _ (by decide)).2.2.2.2.2⟩

/-- The budget arithmetic of calc_time_to_play (time_ctrl.c) before the
network-latency correction. The C function computes in `double`; the real
arithmetic is modelled over ℚ. `BOARD_SIZ` and `TIME_ALLOT_FACTOR` are
config.h constants (config.h is not under src/), passed as parameters. -/
def calc_time_uncompensated (board_siz : Nat) (allot_factor : ℚ)
    (ts : time_system) (turns_played : Nat) : ℚ :=
  let e1 : ℚ := ((board_siz * board_siz : Nat) : ℚ) * 2 / 3 - (turns_played : ℚ)
  let e2 : ℚ := (board_siz : ℚ) / 4
  let turns_left := max e1 e2
  let mtt := (ts.main_time_remaining : ℚ) / turns_left
  let t_t :=
    if 0 < ts.byo_yomi_stones_remaining then
      max ((ts.byo_yomi_time_remaining : ℚ) / (ts.byo_yomi_stones_remaining : ℚ)) mtt
    else mtt
  t_t * allot_factor

/-- calc_time_to_play (time_ctrl.c): the latency compensation is subtracted
only when the budget strictly exceeds it (`t_t > LATENCY_COMPENSATION`); the
compensation value is a config.h constant (or the measured round trip under
DETECT_NETWORK_LATENCY — both compile-time variants use the same strict
comparison), passed as `latency`. The final cast of the non-negative double
to u32 is left implicit; the modelled value is the pre-cast budget. -/
def calc_time_to_play (board_siz : Nat) (allot_factor latency : ℚ)
    (ts : time_system) (turns_played : Nat) : ℚ :=
  let t_t := calc_time_uncompensated board_siz allot_factor ts turns_played
  if latency < t_t then t_t - latency else t_t

lemma calc_time_uncompensated_nonneg (board_siz : Nat) (allot_factor : ℚ)
    (ts : time_system) (turns_played : Nat) (hb : 1 ≤ board_siz)
    (hf : 0 ≤ allot_factor) :
    0 ≤ calc_time_uncompensated board_siz allot_factor ts turns_played := by
  unfold calc_time_uncompensated
  have hbq : (0 : ℚ) < (board_siz : ℚ) := by exact_mod_cast hb
  have he2 : (0 : ℚ) < (board_siz : ℚ) / 4 := by positivity
  have hturns : (0 : ℚ) <
      max (((board_siz * board_siz : Nat) : ℚ) * 2 / 3 - (turns_played : ℚ))
        ((board_siz : ℚ) / 4) :=
    lt_of_lt_of_le he2 (le_max_right _ _)
  have hmtt : (0 : ℚ) ≤ (ts.main_time_remaining : ℚ) /
      max (((board_siz * board_siz : Nat) : ℚ) * 2 / 3 - (turns_played : ℚ))
        ((board_siz : ℚ) / 4) :=
    div_nonneg (Nat.cast_nonneg _) (le_of_lt hturns)
  apply mul_nonneg _ hf
  dsimp only
  split
  · exact le_trans hmtt (le_max_right _ _)
  · exact hmtt

/-- C8 (counterexample): with board size 9, allotment factor 2 and latency
compensation 200, the clock below yields an uncompensated budget of exactly
200: subtracting the compensation would leave exactly 0 (non-negative), but
the strict comparison leaves the budget unchanged at 200. -/
theorem calc_budget_counterexample :
    calc_time_uncompensated 9 2 (set_time_system 0 100 1 1) 0 = 200 ∧
    (0 : ℚ) ≤ calc_time_uncompensated 9 2 (set_time_system 0 100 1 1) 0 - 200 ∧
    calc_time_to_play 9 2 200 (set_time_system 0 100 1 1) 0 = 200 ∧
    calc_time_to_play 9 2 200 (set_time_system 0 100 1 1) 0 ≠
      calc_time_uncompensated 9 2 (set_time_system 0 100 1 1) 0 - 200 := by
  have h : calc_time_uncompensated 9 2 (set_time_system 0 100 1 1) 0 = 200 := by
    unfold calc_time_uncompensated
    norm_num [set_time_system, max_def]
  refine ⟨h, by rw [h]; norm_num, ?_, ?_⟩
  · unfold calc_time_to_play
    rw [h]
    norm_num
  · unfold calc_time_to_play
    rw [h]
    norm_num

/-- C8 (amended): the latency compensation is subtracted exactly when doing so
leaves a strictly positive result; when the uncompensated budget equals the
compensation or is below it, the budget is returned unchanged; the returned
budget is never negative. -/
theorem calc_budget_compensation (board_siz : Nat) (allot_factor latency : ℚ)
    (ts : time_system) (turns_played : Nat) (hb : 1 ≤ board_siz)
    (hf : 0 ≤ allot_factor) :
    0 ≤ calc_time_to_play board_siz allot_factor latency ts turns_played ∧
    (latency < calc_time_uncompensated board_siz allot_factor ts turns_played →
      calc_time_to_play board_siz allot_factor latency ts turns_played =
        calc_time_uncompensated board_siz allot_factor ts turns_played - latency) ∧
    (calc_time_uncompensated board_siz allot_factor ts turns_played ≤ latency →
      calc_time_to_play board_siz allot_factor latency ts turns_played =
        calc_time_uncompensated board_siz allot_factor ts turns_played) := by
  have hnn := calc_time_uncompensated_nonneg board_siz allot_factor ts turns_played hb hf
  unfold calc_time_to_play
  dsimp only
  refine ⟨?_, ?_, ?_⟩
  · split
    next hlt => linarith
    next hlt => exact hnn
  · intro hlt
    rw [if_pos hlt]
  · intro hle
    rw [if_neg (not_lt.mpr hle)]

/-- Witness for `calc_budget_compensation` at concrete parameters. -/
theorem calc_budget_compensation_witness :
    0 ≤ calc_time_to_play 9 2 10 (set_time_system 0 100 1 1) 0 ∧
    (10 < calc_time_uncompensated 9 2 (set_time_system 0 100 1 1) 0 →
      calc_time_to_play 9 2 10 (set_time_system 0 100 1 1) 0 =
        calc_time_uncompensated 9 2 (set_time_system 0 100 1 1) 0 - 10) ∧
    (calc_time_uncompensated 9 2 (set_time_system 0 100 1 1) 0 ≤ 10 →
      calc_time_to_play 9 2 10 (set_time_system 0 100 1 1) 0 =
        calc_time_uncompensated 9 2 (set_time_system 0 100 1 1) 0) :=
  calc_budget_compensation 9 2 10 (set_time_system 0 100 1 1) 0
    (by norm_num) (by norm_num)

/-- The collaborators of evaluate_position and opt_turn_maintenance
(engine.c): symmetry reduction, the opening book, the inverse transform, the
MCTS search (returning the out-board and the win-rate estimate) and the
transposition-table reachability prune (returning the freed-entry count),
abstracted over the board and out-board types. -/
structure engine_collab (B O : Type) where
  reduce_auto : B → B × Int
  opening_book : B → Option O
  oboard_revert_reduce : O → Int → O
  mcts_start : B → Bool → O × ℚ
  tt_clean_outside_tree : B → Bool → Nat

/-- evaluate_position (engine.c): when opening books are in use, look up the
reduced board and return immediately on a hit with the transform inverted;
otherwise run the search and set tt_requires_maintenance. Returns the C
return value (false when the player can resign), the out-board, and the
tt_requires_maintenance flag after the call. UCT_MIN_WINRATE is a config.h
constant, passed as `min_winrate`. -/
def evaluate_position {B O : Type} (C : engine_collab B O) (min_winrate : ℚ)
    (use_opening_book tt_requires_maintenance : Bool) (b : B) (is_black : Bool) :
    Bool × O × Bool :=
  if use_opening_book then
    let rp := C.reduce_auto b
    match C.opening_book rp.1 with
    | some ob => (true, C.oboard_revert_reduce ob rp.2, tt_requires_maintenance)
    | none =>
      let sr := C.mcts_start b is_black
      (decide (min_winrate ≤ sr.2), sr.1, true)
  else
    let sr := C.mcts_start b is_black
    (decide (min_winrate ≤ sr.2), sr.1, true)

/-- opt_turn_maintenance (engine.c): prune the transposition table only when
tt_requires_maintenance is set, then clear the flag. The first component is
the freed count when the prune ran and none when maintenance was skipped;
the second is the flag after the call. -/
def opt_turn_maintenance {B O : Type} (C : engine_collab B O)
    (tt_requires_maintenance : Bool) (b : B) (is_black : Bool) : Option Nat × Bool :=
  if tt_requires_maintenance then (some (C.tt_clean_outside_tree b is_black), false)
  else (none, tt_requires_maintenance)

/-- C5: the search path of evaluate_position sets the maintenance flag, the
book-hit path leaves it untouched, opt_turn_maintenance prunes exactly when
the flag is set and always leaves it clear, and a second consecutive
maintenance call with no intervening search performs no prune. -/
theorem maintenance_gating {B O : Type} (C : engine_collab B O) (min_winrate : ℚ)
    (tt : Bool) (b b1 b2 : B) (c c1 c2 : Bool) :
    ((evaluate_position C min_winrate false tt b c).2.2 = true) ∧
    (∀ r, C.opening_book (C.reduce_auto b).1 = some r →
      (evaluate_position C min_winrate true tt b c).2.2 = tt) ∧
    (C.opening_book (C.reduce_auto b).1 = none →
      (evaluate_position C min_winrate true tt b c).2.2 = true) ∧
    ((opt_turn_maintenance C tt b1 c1).1.isSome = tt) ∧
    ((opt_turn_maintenance C tt b1 c1).2 = false) ∧
    ((opt_turn_maintenance C (opt_turn_maintenance C tt b1 c1).2 b2 c2).1 = none) := by
  refine ⟨?_, ?_, ?_, ?_, ?_, ?_⟩
  · simp [evaluate_position]
  · intro r hr
    unfold evaluate_position
    rw [if_pos rfl]
    dsimp only
    rw [hr]
  · intro hr
    unfold evaluate_position
    rw [if_pos rfl]
    dsimp only
    rw [hr]
  · cases tt <;> simp [opt_turn_maintenance]
  · cases tt <;> simp [opt_turn_maintenance]
  · cases tt <;> simp [opt_turn_maintenance]

/-- A concrete collaborator set on trivial board types whose opening book
always hits. -/
def unit_collab_hit : engine_collab Unit Unit :=
  ⟨fun b => (b, 0), fun _ => some (), fun o _ => o, fun _ _ => ((), 1 / 2),
    fun _ _ => 5⟩

/-- Witness for `maintenance_gating` at concrete collaborators. -/
theorem maintenance_gating_witness :
    ((evaluate_position unit_collab_hit 0 true true () true).2.2 = true) ∧
    ((opt_turn_maintenance unit_collab_hit true () true).1.isSome = true) ∧
    ((opt_turn_maintenance unit_collab_hit
        ((opt_turn_maintenance unit_collab_hit true () true).2) () true).1 = none) :=
  ⟨(maintenance_gating unit_collab_hit 0 true () () () true true true).2.1 () rfl,
   (maintenance_gating unit_collab_hit 0 true () () () true true true).2.2.2.1,
   (maintenance_gating unit_collab_hit 0 true () () () true true true).2.2.2.2.2⟩

/-- C10: an evaluate_position call that returns via the opening-book-hit path
returns true — the no-resign value (the C function returns false exactly when
the player can resign) — for every win-rate threshold. -/
theorem book_path_no_resign {B O : Type} (C : engine_collab B O) (min_winrate : ℚ)
    (tt : Bool) (b : B) (is_black : Bool) (r : O)
    (hhit : C.opening_book (C.reduce_auto b).1 = some r) :
    (evaluate_position C min_winrate true tt b is_black).1 = true := by
  unfold evaluate_position
  rw [if_pos rfl]
  dsimp only
  rw [hhit]

/-- Witness for `book_path_no_resign`, with a threshold requiring a win rate
above 1 so that the search path could never signal no-resign. -/
theorem book_path_no_resign_witness :
    (evaluate_position unit_collab_hit 1000 true false () true).1 = true :=
  book_path_no_resign unit_collab_hit 1000 false () true () rfl

end Matilda
